import Mathlib

/-!
Shallow embedding of the minTorrent client (src/minTorrent), covering the
wire codec and stream framer (protocol.py: the message classes and
PeerStreamIterator), the peer session loop (PeerConnection._start,
_request_piece, _handshake), and the tracker response parsing (tracker.py:
TrackerResponse and _decode_port).  Bytes are modelled as `List Nat`
(each element a byte value), Python byte strings as such lists, and
Python exceptions as `Except` errors or dedicated result constructors.
-/

namespace MinTorrent

/-- Big-endian 4-byte encoding of a natural number, as `struct.pack ">I"`
produces for an in-range argument. -/
def u32be (n : Nat) : List Nat :=
  [n / 2 ^ 24 % 256, n / 2 ^ 16 % 256, n / 2 ^ 8 % 256, n % 256]

/-- Big-endian reading of the first four bytes, as `struct.unpack ">I"`. -/
def beU32 (b : List Nat) : Nat :=
  b.getD 0 0 * 2 ^ 24 + b.getD 1 0 * 2 ^ 16 + b.getD 2 0 * 2 ^ 8 + b.getD 3 0

/-- Signed reading of one byte, as `struct.unpack "b"`. -/
def sbyte (b : Nat) : Int :=
  if b < 128 then (b : Int) else (b : Int) - 256

/-- The bits of one byte, most significant first, as `bitstring.BitArray`
exposes them. -/
def byteBits (b : Nat) : List Bool :=
  (List.range 8).map (fun i => b / 2 ^ (7 - i) % 2 = 1)

/-- The bit array of a byte string (`bitstring.BitArray(bytes=data)`):
eight bits per byte, most significant first. -/
def bytesToBits (data : List Nat) : List Bool :=
  (data.map byteBits).flatten

/-- The decoded peer-wire messages of protocol.py.  A `BitField` value is
identified by its bit array, the other payload-carrying messages by their
integer fields and block bytes. -/
inductive Msg where
  | keepAlive
  | choke
  | unchoke
  | interested
  | notInterested
  | haveMsg (pieceIndex : Nat)
  | bitfield (bits : List Bool)
  | request (index begin length : Nat)
  | piece (index begin : Nat) (block : List Nat)
  | cancel (index begin length : Nat)
  deriving DecidableEq, Repr

/-- Result of calling `encode()` on a message object: the produced byte
string, Python `None` (the `PeerMessage.encode` stub, inherited by the
classes that define no encoder), or a raised exception. -/
inductive EncRes where
  | bytes (bs : List Nat)
  | pyNone
  | raises
  deriving DecidableEq, Repr

/-- A raised `struct.error`. -/
inductive StErr where
  | structError
  deriving DecidableEq, Repr

/-- Interested.encode: `struct.pack(">Ib", 1, 2)`. -/
def interestedEncode : List Nat := u32be 1 ++ [2]

/-- Have.encode: `struct.pack(">IbI", 5, 4, piece_index)`; struct raises
when the index does not fit an unsigned 32-bit field. -/
def haveEncode (pieceIndex : Nat) : EncRes :=
  if pieceIndex < 2 ^ 32 then .bytes (u32be 5 ++ [4] ++ u32be pieceIndex)
  else .raises

/-- Request.encode: `struct.pack(">IbIII", 13, 6, index, begin, length)`. -/
def requestEncode (index begin length : Nat) : EncRes :=
  if index < 2 ^ 32 ∧ begin < 2 ^ 32 ∧ length < 2 ^ 32 then
    .bytes (u32be 13 ++ [6] ++ u32be index ++ u32be begin ++ u32be length)
  else .raises

/-- Cancel.encode: `struct.pack(">IbIII", 13, 8, index, begin, length)`. -/
def cancelEncode (index begin length : Nat) : EncRes :=
  if index < 2 ^ 32 ∧ begin < 2 ^ 32 ∧ length < 2 ^ 32 then
    .bytes (u32be 13 ++ [8] ++ u32be index ++ u32be begin ++ u32be length)
  else .raises

/-- Piece.encode: `struct.pack(">IbII" + str(len(block)) + "s", 9 + len(block),
7, index, begin, block)`. -/
def pieceEncode (index begin : Nat) (block : List Nat) : EncRes :=
  if 9 + block.length < 2 ^ 32 ∧ index < 2 ^ 32 ∧ begin < 2 ^ 32 then
    .bytes (u32be (9 + block.length) ++ [7] ++ u32be index ++ u32be begin ++ block)
  else .raises

/-- BitField.encode: `struct.pack(">Ib" + str(len(self.bitfield)) + "s", ...)`
passes `self.bitfield`, a `bitstring.BitArray`, as the argument of the `"s"`
field.  CPython's struct accepts only bytes or bytearray there
(`struct.error: argument for 's' must be a bytes object`), so this call
raises for every bitfield. -/
def bitfieldEncode (_bits : List Bool) : EncRes :=
  .raises

/-- Dispatch of `m.encode()` over the message classes.  KeepAlive, Choke,
Unchoke and NotInterested define no `encode` and inherit the base-class
stub, whose body is `pass`, so the call returns Python `None`. -/
def encodeMsg : Msg → EncRes
  | .keepAlive => .pyNone
  | .choke => .pyNone
  | .unchoke => .pyNone
  | .interested => .bytes interestedEncode
  | .notInterested => .pyNone
  | .haveMsg i => haveEncode i
  | .bitfield bits => bitfieldEncode bits
  | .request i b l => requestEncode i b l
  | .piece i b blk => pieceEncode i b blk
  | .cancel i b l => cancelEncode i b l

/-- Have.decode: `struct.unpack(">IbI", data)[2]`; unpack demands exactly
nine bytes and validates neither the length field nor the id byte. -/
def haveDecode (data : List Nat) : Except StErr Msg :=
  if data.length = 9 then .ok (.haveMsg (beU32 (data.drop 5)))
  else .error .structError

/-- Request.decode: `struct.unpack(">IbIII", data)`, demanding exactly
seventeen bytes. -/
def requestDecode (data : List Nat) : Except StErr Msg :=
  if data.length = 17 then
    .ok (.request (beU32 (data.drop 5)) (beU32 (data.drop 9)) (beU32 (data.drop 13)))
  else .error .structError

/-- Cancel.decode: `struct.unpack(">IbIII", data)`, demanding exactly
seventeen bytes. -/
def cancelDecode (data : List Nat) : Except StErr Msg :=
  if data.length = 17 then
    .ok (.cancel (beU32 (data.drop 5)) (beU32 (data.drop 9)) (beU32 (data.drop 13)))
  else .error .structError

/-- Piece.decode: reads `length` from the first four bytes, then
`struct.unpack(">IbII" + str(length - 9) + "s", data[:length+4])`.  A
length below nine yields a negative count, an invalid format character;
a buffer shorter than `length + 4` fails the unpack size check. -/
def pieceDecode (data : List Nat) : Except StErr Msg :=
  if data.length < 4 then .error .structError
  else
    if beU32 (data.take 4) < 9 then .error .structError
    else
      if data.length < beU32 (data.take 4) + 4 then .error .structError
      else
        .ok (.piece (beU32 (data.drop 5)) (beU32 (data.drop 9))
          ((data.drop 13).take (beU32 (data.take 4) - 9)))

/-- BitField.decode: reads `message_length` from the first four bytes,
then `struct.unpack(">Ib" + str(message_length - 1) + "s", data)`, which
demands exactly `4 + message_length` bytes; the payload becomes the bit
array of the object. -/
def bitfieldDecode (data : List Nat) : Except StErr Msg :=
  if data.length < 4 then .error .structError
  else
    if beU32 (data.take 4) = 0 then .error .structError
    else
      if data.length = 4 + beU32 (data.take 4) then
        .ok (.bitfield (bytesToBits (data.drop 5)))
      else .error .structError

/-- Result of calling `decode` on a message class: a decoded message,
Python `None` (the `PeerMessage.decode` stub), or a raised exception. -/
inductive DecRes where
  | msg (m : Msg)
  | pyNone
  | raises
  deriving DecidableEq, Repr

/-- Lift a class decoder into the call-result type. -/
def decRes : Except StErr Msg → DecRes
  | .ok m => .msg m
  | .error _ => .raises

/-- Dispatch of `type(m).decode(data)` over the message classes.
KeepAlive, Choke, Unchoke, Interested and NotInterested define no
`decode` and inherit the base-class stub returning Python `None`. -/
def decodeAs : Msg → List Nat → DecRes
  | .keepAlive, _ => .pyNone
  | .choke, _ => .pyNone
  | .unchoke, _ => .pyNone
  | .interested, _ => .pyNone
  | .notInterested, _ => .pyNone
  | .haveMsg _, data => decRes (haveDecode data)
  | .bitfield _, data => decRes (bitfieldDecode data)
  | .request _ _ _, data => decRes (requestDecode data)
  | .piece _ _ _, data => decRes (pieceDecode data)
  | .cancel _ _ _, data => decRes (cancelDecode data)

/-- PeerStreamIterator.parse.  Returns the parsed message (if any)
together with the buffer left after `_consume`, or propagates an
exception raised by a class decoder.  Mirrors the source: the guard for a
complete frame compares the buffer against `message_length` alone (the
four header bytes are not added), a zero `message_length` yields
`KeepAlive` without consuming anything, and an id outside 0..8 falls
through to `None` with the buffer unchanged. -/
def parse (buffer : List Nat) : Except StErr (Option Msg × List Nat) :=
  if buffer.length > 4 then
    if beU32 (buffer.take 4) = 0 then .ok (some .keepAlive, buffer)
    else
      if beU32 (buffer.take 4) ≤ buffer.length then
        let rest := buffer.drop (4 + beU32 (buffer.take 4))
        let data := buffer.take (4 + beU32 (buffer.take 4))
        if sbyte (buffer.getD 4 0) = 5 then
          (bitfieldDecode data).map (fun m => (some m, rest))
        else if sbyte (buffer.getD 4 0) = 2 then .ok (some .interested, rest)
        else if sbyte (buffer.getD 4 0) = 3 then .ok (some .notInterested, rest)
        else if sbyte (buffer.getD 4 0) = 0 then .ok (some .choke, rest)
        else if sbyte (buffer.getD 4 0) = 1 then .ok (some .unchoke, rest)
        else if sbyte (buffer.getD 4 0) = 4 then
          (haveDecode data).map (fun m => (some m, rest))
        else if sbyte (buffer.getD 4 0) = 7 then
          (pieceDecode data).map (fun m => (some m, rest))
        else if sbyte (buffer.getD 4 0) = 6 then
          (requestDecode data).map (fun m => (some m, rest))
        else if sbyte (buffer.getD 4 0) = 8 then
          (cancelDecode data).map (fun m => (some m, rest))
        else .ok (none, buffer)
      else .ok (none, buffer)
  else .ok (none, buffer)

/-- The end-of-stream branch of PeerStreamIterator.anext: when a read
returns no data, parse the remaining buffer once, yield at most one
message, and stop; a decoding exception stops the iteration silently. -/
def eofYield (buffer : List Nat) : List Msg :=
  if buffer = [] then []
  else
    match parse buffer with
    | .ok (some m, _) => [m]
    | _ => []

/-- PeerStreamIterator.anext driven by a list of successive reader
results: each nonempty chunk is appended to the buffer and `parse` is
invoked once, yielding at most one message; an empty chunk (end of
stream) triggers the final-buffer branch and stops; an exception from
`parse` stops the iteration. -/
def anext (buffer : List Nat) : List (List Nat) → List Msg
  | [] => eofYield buffer
  | c :: cs =>
    if c = [] then eofYield buffer
    else
      match parse (buffer ++ c) with
      | .ok (some m, b) => m :: anext b cs
      | .ok (none, b) => anext b cs
      | .error _ => []

/-- The string tags PeerConnection keeps in its `my_state` and
`peer_state` lists. -/
inductive Tag where
  | choked
  | interested
  | pendingRequest
  | stopped
  deriving DecidableEq, Repr

/-- The mutable state of a PeerConnection inside its message loop: the
two growable tag lists. -/
structure SessState where
  myState : List Tag
  peerState : List Tag
  deriving DecidableEq, Repr

/-- State after the handshake: `my_state` received `'choked'` and then
`'interested'`. -/
def initState : SessState := ⟨[.choked, .interested], []⟩

/-- A block as handed out by the piece manager's `next_request`. -/
structure Block where
  piece : Nat
  offset : Nat
  length : Nat
  deriving DecidableEq, Repr

/-- Externally visible actions of one loop iteration: calls into the
piece manager, the block callback, and a `request` written to the peer. -/
inductive Effect where
  | addPeer (bits : List Bool)
  | updatePeer (idx : Nat)
  | blockCb (idx begin : Nat) (data : List Nat)
  | sendRequest (piece offset length : Nat)
  deriving DecidableEq, Repr

/-- A raised ValueError (`list.remove(x): x not in list`). -/
inductive SErr where
  | valueError
  deriving DecidableEq, Repr

/-- Whether an effect is a `request` message sent to the peer. -/
def isSendReq : Effect → Bool
  | .sendRequest _ _ _ => true
  | _ => false

/-- The dispatch on one decoded message in PeerConnection._start.  `Choke`
appends a tag unconditionally; `Unchoke` and `NotInterested` remove the
first occurrence only after a membership test; `Piece` calls
`my_state.remove('pending_request')` unguarded, raising ValueError when
the tag is absent, before invoking the block callback. -/
def handle (s : SessState) : Msg → Except SErr (SessState × List Effect)
  | .bitfield bits => .ok (s, [.addPeer bits])
  | .interested => .ok ({ s with peerState := s.peerState ++ [.interested] }, [])
  | .notInterested =>
    .ok ({ s with peerState :=
      if Tag.interested ∈ s.peerState then s.peerState.erase .interested
      else s.peerState }, [])
  | .choke => .ok ({ s with myState := s.myState ++ [.choked] }, [])
  | .unchoke =>
    .ok ({ s with myState :=
      if Tag.choked ∈ s.myState then s.myState.erase .choked
      else s.myState }, [])
  | .haveMsg i => .ok (s, [.updatePeer i])
  | .keepAlive => .ok (s, [])
  | .piece i b blk =>
    if Tag.pendingRequest ∈ s.myState then
      .ok ({ s with myState := s.myState.erase .pendingRequest }, [.blockCb i b blk])
    else .error .valueError
  | .request _ _ _ => .ok (s, [])
  | .cancel _ _ _ => .ok (s, [])

/-- The request pump after each handled message: when not choked,
interested, and with no pending request, append `'pending_request'` and
ask the piece manager for a block (`nextReq` is what `next_request`
returns); a returned block is sent as a `request` message. -/
def pump (s : SessState) (nextReq : Option Block) : SessState × List Effect :=
  if Tag.choked ∉ s.myState then
    if Tag.interested ∈ s.myState then
      if Tag.pendingRequest ∉ s.myState then
        match nextReq with
        | some blk =>
          ({ s with myState := s.myState ++ [.pendingRequest] },
            [.sendRequest blk.piece blk.offset blk.length])
        | none => ({ s with myState := s.myState ++ [.pendingRequest] }, [])
      else (s, [])
    else (s, [])
  else (s, [])

/-- One iteration of the message loop: handle the message, then run the
request pump. -/
def step (s : SessState) (m : Msg) (nextReq : Option Block) :
    Except SErr (SessState × List Effect) :=
  match handle s m with
  | .error e => .error e
  | .ok (s1, effs) => .ok ((pump s1 nextReq).1, effs ++ (pump s1 nextReq).2)

/-- The message loop run over a list of messages paired with the piece
manager's reply to the pump at that iteration, recording for each
processed message whether a `request` was sent.  A raised exception ends
the loop; a `'stopped'` tag breaks out before processing. -/
def runTrace (s : SessState) : List (Msg × Option Block) → List (Msg × Bool)
  | [] => []
  | (m, ob) :: rest =>
    if Tag.stopped ∈ s.myState then []
    else
      match step s m ob with
      | .ok (s', effs) => (m, effs.any isSendReq) :: runTrace s' rest
      | .error _ => []

/-- The message loop run for its final state. -/
def runS (s : SessState) : List (Msg × Option Block) → Except SErr SessState
  | [] => .ok s
  | (m, ob) :: rest =>
    if Tag.stopped ∈ s.myState then .ok s
    else
      match step s m ob with
      | .ok (s', _) => runS s' rest
      | .error e => .error e

/-- A raised ProtocolError. -/
inductive PErr where
  | protocolError
  deriving DecidableEq, Repr

/-- The ASCII bytes of "BitTorrent protocol". -/
def pstr : List Nat :=
  [66, 105, 116, 84, 111, 114, 114, 101, 110, 116, 32, 112, 114, 111, 116,
   111, 99, 111, 108]

/-- Zero-pad or truncate to twenty bytes, as `struct.pack "20s"` does. -/
def pad20 (l : List Nat) : List Nat :=
  l.take 20 ++ List.replicate (20 - l.length) 0

/-- Handshake.encode: `struct.pack(">B19s8x20s20s", 19, b"BitTorrent
protocol", info_hash, peer_id)`; the pad bytes are zeros. -/
def handshakeEncode (infoHash peerId : List Nat) : List Nat :=
  [19] ++ pstr ++ List.replicate 8 0 ++ pad20 infoHash ++ pad20 peerId

/-- Handshake.decode: `None` for fewer than 68 bytes, otherwise
`struct.unpack(">B19s8x20s20s", data)` — which checks only the total
size, never the pstr — giving the info-hash and peer-id fields. -/
def handshakeDecode (data : List Nat) : Option (List Nat × List Nat) :=
  if data.length < 68 then none
  else some ((data.drop 28).take 20, (data.drop 48).take 20)

/-- The read loop of PeerConnection._handshake, written with the fuel
that the `tries` bound makes sufficient: while the buffer is shorter
than 68 bytes and `tries < 10`, increment `tries` and overwrite the
buffer with the next read result (reads past the end of the list return
the empty byte string). -/
def hsGoF : Nat → List Nat → Nat → List (List Nat) → List Nat
  | 0, buf, _, _ => buf
  | f + 1, buf, tries, reads =>
    if buf.length < 68 ∧ tries < 10 then
      match reads with
      | r :: rs => hsGoF f r (tries + 1) rs
      | [] => hsGoF f [] (tries + 1) []
    else buf

/-- The buffer `_handshake` holds after its read loop, starting from the
empty buffer and `tries = 1`; fuel 10 exceeds the at most nine
iterations the `tries` bound allows. -/
def hsLoop (reads : List (List Nat)) : List Nat :=
  hsGoF 10 [] 1 reads

/-- PeerConnection._handshake after sending our handshake: run the read
loop, decode the first 68 bytes of its final buffer, raise ProtocolError
when decoding returns `None` or the info-hash differs from ours, and
otherwise return the remote peer-id with the bytes beyond the first 68
as the framer's initial buffer. -/
def handshakeRun (ourInfoHash : List Nat) (reads : List (List Nat)) :
    Except PErr (List Nat × List Nat) :=
  match handshakeDecode ((hsLoop reads).take 68) with
  | none => .error .protocolError
  | some (ih, pid) =>
    if ih = ourInfoHash then .ok (pid, (hsLoop reads).drop 68)
    else .error .protocolError

/-- A tracker Peer record, the namedtuple `Peer(ip, port, id)`. -/
structure Peer where
  ip : String
  port : Nat
  id : Option (List Nat)
  deriving DecidableEq, Repr

/-- Exceptions raised while parsing the tracker peers field. -/
inductive TrackerErr where
  | notImplemented
  | socketError
  | structError
  deriving DecidableEq, Repr

/-- A peer record of the dictionary model, `{peer id, ip, port}`. -/
structure PeerDict where
  ip : List Nat
  port : Nat
  peerId : List Nat
  deriving DecidableEq, Repr

/-- The `peers` field of a tracker response: a binary blob or a list of
dictionaries. -/
inductive PeersField where
  | blob (bs : List Nat)
  | dicts (l : List PeerDict)
  deriving DecidableEq, Repr

/-- socket.inet_ntoa: dotted-quad rendering of exactly four bytes. -/
def inetNtoa (bs : List Nat) : Except TrackerErr String :=
  match bs with
  | [a, b, c, d] =>
    .ok (Nat.repr a ++ "." ++ Nat.repr b ++ "." ++ Nat.repr c ++ "." ++ Nat.repr d)
  | _ => .error .socketError

/-- _decode_port: `struct.unpack(">H", port)`, demanding exactly two
bytes, big-endian. -/
def decodePort (bs : List Nat) : Except TrackerErr Nat :=
  match bs with
  | [hi, lo] => .ok (hi * 256 + lo)
  | _ => .error .structError

/-- The slices `peers_binary[i:i+6] for i in range(0, len, 6)`: six-byte
pieces, with a shorter final piece when the length is not a multiple of
six. -/
def chunks6 : List Nat → List (List Nat)
  | [] => []
  | a :: b :: c :: d :: e :: f :: rest => [a, b, c, d, e, f] :: chunks6 rest
  | l => [l]

/-- One tuple of `_generate_peer_list`'s loop:
`Peer(socket.inet_ntoa(p[:4]), _decode_port(p[4:]), None)`. -/
def peerOfRecord (p : List Nat) : Except TrackerErr Peer := do
  let ipStr ← inetNtoa (p.take 4)
  let portNum ← decodePort (p.drop 4)
  return ⟨ipStr, portNum, none⟩

/-- TrackerResponse._generate_peer_list: the dictionary model raises
NotImplementedError; the binary model splits the blob into six-byte
pieces and converts each. -/
def generatePeerList : PeersField → Except TrackerErr (List Peer)
  | .dicts _ => .error .notImplemented
  | .blob bs => (chunks6 bs).mapM peerOfRecord

/-- A value stored in the decoded tracker response dictionary, as far as
the accessor properties look at it: an integer or a byte string. -/
inductive BVal where
  | int (n : Int)
  | bytes (bs : List Nat)
  deriving DecidableEq, Repr

/-- The decoded bencoded tracker response: an ordered dictionary with
byte-string keys. -/
structure TrackerResponse where
  responseRaw : List (List Nat × BVal)
  deriving DecidableEq, Repr

/-- Python `dict.get`/`in`: the value at the first matching key. -/
def dictGet (d : List (List Nat × BVal)) (k : List Nat) : Option BVal :=
  (d.find? (fun p => p.1 = k)).map Prod.snd

/-- The ASCII bytes of the key `b"failure reason"`. -/
def bFailureReason : List Nat :=
  [102, 97, 105, 108, 117, 114, 101, 32, 114, 101, 97, 115, 111, 110]

/-- The ASCII bytes of the key `b"interval"`. -/
def bInterval : List Nat := [105, 110, 116, 101, 114, 118, 97, 108]

/-- The ASCII bytes of the key `b"complete"`. -/
def bComplete : List Nat := [99, 111, 109, 112, 108, 101, 116, 101]

/-- The ASCII bytes of the key `b"incomplete"`. -/
def bIncomplete : List Nat :=
  [105, 110, 99, 111, 109, 112, 108, 101, 116, 101]

/-- TrackerResponse.interval: `self.response_raw.get(b'interval', 0)`. -/
def interval (r : TrackerResponse) : BVal :=
  (dictGet r.responseRaw bInterval).getD (.int 0)

/-- TrackerResponse.complete: `self.response_raw.get(b'complete', 0)`. -/
def complete (r : TrackerResponse) : BVal :=
  (dictGet r.responseRaw bComplete).getD (.int 0)

/-- TrackerResponse.incomplete: `self.response_raw.get(b'incomplete', 0)`. -/
def incomplete (r : TrackerResponse) : BVal :=
  (dictGet r.responseRaw bIncomplete).getD (.int 0)

/-- Exceptions the `failure` property can raise: calling `.decode` on a
non-bytes value, or an undecodable byte string. -/
inductive PyE where
  | attributeError
  | unicodeError
  deriving DecidableEq, Repr

/-- TrackerResponse.failure: `None` when `b'failure reason'` is absent,
otherwise the stored byte string decoded as text.  The text codec is a
parameter (`dec` stands for `bytes.decode('utf-8')`); a stored non-bytes
value would make the attribute lookup raise. -/
def failure (dec : List Nat → Except Unit String) (r : TrackerResponse) :
    Except PyE (Option String) :=
  match dictGet r.responseRaw bFailureReason with
  | none => .ok none
  | some (.bytes bs) =>
    match dec bs with
    | .ok s => .ok (some s)
    | .error _ => .error .unicodeError
  | some (.int _) => .error .attributeError

/-- The value semantics the choke tags actually follow: a counter that
each `choke` increments and each `unchoke` decrements (floored at zero,
matching the membership-guarded `remove`), other messages leaving it
unchanged. -/
def chokeTally : Nat → List Msg → Nat
  | c, [] => c
  | c, .choke :: rest => chokeTally (c + 1) rest
  | c, .unchoke :: rest => chokeTally (c - 1) rest
  | c, _ :: rest => chokeTally c rest

/-! ### Shared example values -/

/-- A concrete 20-byte info-hash used in concrete instances. -/
def exInfoHash : List Nat := (List.range 20).map (fun i => i + 1)

/-- A concrete 20-byte peer-id used in concrete instances. -/
def exPeerId : List Nat := List.replicate 20 2

/-- The handshake frame for the concrete example values. -/
def exFull : List Nat := handshakeEncode exInfoHash exPeerId

/-! ### C1: codec round trips -/

lemma beU32_u32be_prefix (n : Nat) (rest : List Nat) (h : n < 2 ^ 32) :
    beU32 (u32be n ++ rest) = n := by
  simp [beU32, u32be, List.getD]
  omega

lemma beU32_u32be (n : Nat) (h : n < 2 ^ 32) : beU32 (u32be n) = n := by
  simpa using beU32_u32be_prefix n [] h

lemma have_roundtrip (i : Nat) (bs : List Nat) (h : haveEncode i = .bytes bs) :
    haveDecode bs = .ok (.haveMsg i) := by
  unfold haveEncode at h
  by_cases hi : i < 2 ^ 32
  · rw [if_pos hi] at h
    cases h
    have hl : (u32be 5 ++ [4] ++ u32be i).length = 9 := by simp [u32be]
    have hd : (u32be 5 ++ [4] ++ u32be i).drop 5 = u32be i := by simp [u32be]
    unfold haveDecode
    rw [if_pos hl, hd, beU32_u32be i hi]
  · rw [if_neg hi] at h
    cases h

lemma request_roundtrip (i b l : Nat) (bs : List Nat)
    (h : requestEncode i b l = .bytes bs) :
    requestDecode bs = .ok (.request i b l) := by
  unfold requestEncode at h
  by_cases hc : i < 2 ^ 32 ∧ b < 2 ^ 32 ∧ l < 2 ^ 32
  · rw [if_pos hc] at h
    obtain ⟨hi, hb, hl⟩ := hc
    cases h
    have hlen : (u32be 13 ++ [6] ++ u32be i ++ u32be b ++ u32be l).length = 17 := by
      simp [u32be]
    have hd5 : (u32be 13 ++ [6] ++ u32be i ++ u32be b ++ u32be l).drop 5 =
        u32be i ++ (u32be b ++ u32be l) := by simp [u32be]
    have hd9 : (u32be 13 ++ [6] ++ u32be i ++ u32be b ++ u32be l).drop 9 =
        u32be b ++ u32be l := by simp [u32be]
    have hd13 : (u32be 13 ++ [6] ++ u32be i ++ u32be b ++ u32be l).drop 13 =
        u32be l := by simp [u32be]
    unfold requestDecode
    rw [if_pos hlen, hd5, beU32_u32be_prefix i _ hi, hd9,
      beU32_u32be_prefix b _ hb, hd13, beU32_u32be l hl]
  · rw [if_neg hc] at h
    cases h

lemma cancel_roundtrip (i b l : Nat) (bs : List Nat)
    (h : cancelEncode i b l = .bytes bs) :
    cancelDecode bs = .ok (.cancel i b l) := by
  unfold cancelEncode at h
  by_cases hc : i < 2 ^ 32 ∧ b < 2 ^ 32 ∧ l < 2 ^ 32
  · rw [if_pos hc] at h
    obtain ⟨hi, hb, hl⟩ := hc
    cases h
    have hlen : (u32be 13 ++ [8] ++ u32be i ++ u32be b ++ u32be l).length = 17 := by
      simp [u32be]
    have hd5 : (u32be 13 ++ [8] ++ u32be i ++ u32be b ++ u32be l).drop 5 =
        u32be i ++ (u32be b ++ u32be l) := by simp [u32be]
    have hd9 : (u32be 13 ++ [8] ++ u32be i ++ u32be b ++ u32be l).drop 9 =
        u32be b ++ u32be l := by simp [u32be]
    have hd13 : (u32be 13 ++ [8] ++ u32be i ++ u32be b ++ u32be l).drop 13 =
        u32be l := by simp [u32be]
    unfold cancelDecode
    rw [if_pos hlen, hd5, beU32_u32be_prefix i _ hi, hd9,
      beU32_u32be_prefix b _ hb, hd13, beU32_u32be l hl]
  · rw [if_neg hc] at h
    cases h

lemma piece_roundtrip (i b : Nat) (blk : List Nat) (bs : List Nat)
    (h : pieceEncode i b blk = .bytes bs) :
    pieceDecode bs = .ok (.piece i b blk) := by
  unfold pieceEncode at h
  by_cases hc : 9 + blk.length < 2 ^ 32 ∧ i < 2 ^ 32 ∧ b < 2 ^ 32
  · rw [if_pos hc] at h
    obtain ⟨h9, hi, hb⟩ := hc
    cases h
    have hlen : (u32be (9 + blk.length) ++ [7] ++ u32be i ++ u32be b ++ blk).length =
        13 + blk.length := by
      simp [u32be]
      omega
    have htake : (u32be (9 + blk.length) ++ [7] ++ u32be i ++ u32be b ++ blk).take 4 =
        u32be (9 + blk.length) := by simp [u32be]
    have hbe : beU32 ((u32be (9 + blk.length) ++ [7] ++ u32be i ++ u32be b ++ blk).take 4) =
        9 + blk.length := by rw [htake]; exact beU32_u32be _ h9
    have hd5 : (u32be (9 + blk.length) ++ [7] ++ u32be i ++ u32be b ++ blk).drop 5 =
        u32be i ++ (u32be b ++ blk) := by simp [u32be]
    have hd9 : (u32be (9 + blk.length) ++ [7] ++ u32be i ++ u32be b ++ blk).drop 9 =
        u32be b ++ blk := by simp [u32be]
    have hd13 : (u32be (9 + blk.length) ++ [7] ++ u32be i ++ u32be b ++ blk).drop 13 =
        blk := by simp [u32be]
    unfold pieceDecode
    rw [hlen, hbe, if_neg (by omega), if_neg (by omega), if_neg (by omega),
      hd5, beU32_u32be_prefix i _ hi, hd9, beU32_u32be_prefix b _ hb, hd13,
      show 9 + blk.length - 9 = blk.length from by omega, List.take_length]
  · rw [if_neg hc] at h
    cases h

/-- C1 counterexample: the claimed total round trip fails outside the
have/request/piece/cancel/interested encoders: keep-alive, choke,
unchoke and not-interested inherit the base-class stub encoder and
return Python None instead of bytes; BitField.encode raises struct.error
(it hands the BitArray itself, with the bit count as the byte count, to
struct.pack); and Interested inherits the stub decoder returning None. -/
theorem c1_counterexample :
    encodeMsg .keepAlive = .pyNone ∧ encodeMsg .choke = .pyNone ∧
    encodeMsg .unchoke = .pyNone ∧ encodeMsg .notInterested = .pyNone ∧
    encodeMsg (.bitfield (bytesToBits [128])) = .raises ∧
    decodeAs .interested interestedEncode = .pyNone := by
  decide

/-- C1 (amended): encode-then-decode is the identity exactly where both
directions exist: have, request, piece and cancel frames decode back to
the message whenever their encoder produced bytes, and interested's
frame is decoded back by the stream parser; keep-alive, choke, unchoke
and not-interested have no encoder (the stub returns None), Interested
has no decoder, and BitField.encode raises for every bitfield, so no
bitfield frame is ever produced, let alone round-tripped. -/
theorem c1_roundtrip_amended :
    (∀ i bs, haveEncode i = .bytes bs → haveDecode bs = .ok (.haveMsg i)) ∧
    (∀ i b l bs, requestEncode i b l = .bytes bs →
      requestDecode bs = .ok (.request i b l)) ∧
    (∀ i b l bs, cancelEncode i b l = .bytes bs →
      cancelDecode bs = .ok (.cancel i b l)) ∧
    (∀ i b blk bs, pieceEncode i b blk = .bytes bs →
      pieceDecode bs = .ok (.piece i b blk)) ∧
    parse interestedEncode = .ok (some .interested, []) ∧
    encodeMsg .keepAlive = .pyNone ∧ encodeMsg .choke = .pyNone ∧
    encodeMsg .unchoke = .pyNone ∧ encodeMsg .notInterested = .pyNone ∧
    (∀ bits, encodeMsg (.bitfield bits) = .raises) ∧
    (∀ data, decodeAs .interested data = .pyNone) :=
  ⟨have_roundtrip, request_roundtrip, cancel_roundtrip, piece_roundtrip,
   rfl, rfl, rfl, rfl, rfl, fun _ => rfl, fun _ => rfl⟩

/-- C1 witness: the round trips applied to concrete frames. -/
theorem c1_witness :
    haveDecode [0, 0, 0, 5, 4, 0, 0, 0, 7] = .ok (.haveMsg 7) ∧
    requestDecode [0, 0, 0, 13, 6, 0, 0, 0, 1, 0, 0, 0, 2, 0, 0, 0, 3] =
      .ok (.request 1 2 3) ∧
    cancelDecode [0, 0, 0, 13, 8, 0, 0, 0, 1, 0, 0, 0, 2, 0, 0, 0, 3] =
      .ok (.cancel 1 2 3) ∧
    pieceDecode [0, 0, 0, 12, 7, 0, 0, 0, 1, 0, 0, 0, 2, 9, 9, 9] =
      .ok (.piece 1 2 [9, 9, 9]) :=
  ⟨c1_roundtrip_amended.1 7 _ rfl,
   c1_roundtrip_amended.2.1 1 2 3 _ rfl,
   c1_roundtrip_amended.2.2.1 1 2 3 _ rfl,
   c1_roundtrip_amended.2.2.2.1 1 2 [9, 9, 9] _ rfl⟩

/-! ### C2 -/

/-- C2: the spec's literal scenario.  The 9-byte stream
`00 00 00 00 00 00 00 01 01`, delivered as one chunk, is claimed to
yield keep-alive followed by unchoke.  The code yields keep-alive twice
and never the unchoke: `parse` returns `KeepAlive` without consuming the
four zero bytes, and `anext` parses at most once per read event, so the
buffer never advances past the keep-alive frame. -/
theorem c2_keepalive_framing_eval :
    anext [] [[0, 0, 0, 0, 0, 0, 0, 1, 1]] = [.keepAlive, .keepAlive] ∧
    Msg.unchoke ∉ anext [] [[0, 0, 0, 0, 0, 0, 0, 1, 1]] := by
  decide

/-! ### C3 -/

/-- C3 counterexample: a well-framed message with unknown id 10 followed
by a complete unchoke frame, delivered in one chunk.  `parse` returns no
message and leaves the buffer unchanged, so the framer never advances
past the unknown message and the subsequent unchoke is never decoded —
refuting the claim that the framer consumes the unknown message's bytes
so that subsequent messages are still decoded. -/
theorem c3_counterexample :
    parse [0, 0, 0, 1, 10, 0, 0, 0, 1, 1] =
      .ok (none, [0, 0, 0, 1, 10, 0, 0, 0, 1, 1]) ∧
    anext [] [[0, 0, 0, 1, 10, 0, 0, 0, 1, 1]] = [] :=
  ⟨rfl, rfl⟩

/-- C3 (amended): when the buffer starts with a well-framed message
whose id byte is outside 0..8, `parse` does not raise: it returns no
message and the buffer unchanged, so the message's bytes are never
consumed and later messages in the buffer are not reached. -/
theorem c3_unknown_id_not_consumed (buffer : List Nat)
    (h1 : 4 < buffer.length) (h2 : beU32 (buffer.take 4) ≠ 0)
    (h3 : beU32 (buffer.take 4) ≤ buffer.length)
    (h4 : sbyte (buffer.getD 4 0) ∉ ([0, 1, 2, 3, 4, 5, 6, 7, 8] : List Int)) :
    parse buffer = .ok (none, buffer) := by
  simp only [List.mem_cons, List.not_mem_nil, or_false] at h4
  push_neg at h4
  obtain ⟨n0, n1, n2, n3, n4, n5, n6, n7, n8⟩ := h4
  simp only [parse]
  rw [if_pos h1, if_neg h2, if_pos h3, if_neg n5, if_neg n2, if_neg n3,
    if_neg n0, if_neg n1, if_neg n4, if_neg n7, if_neg n6, if_neg n8]

/-- C3 witness: the amended statement applied to the concrete buffer
holding one unknown-id frame. -/
theorem c3_witness : parse [0, 0, 0, 1, 10] = .ok (none, [0, 0, 0, 1, 10]) :=
  c3_unknown_id_not_consumed [0, 0, 0, 1, 10] (by decide) (by decide)
    (by decide) (by decide)

/-! ### C4 and C7: handshake -/

lemma pad20_eq_of_length {l : List Nat} (h : l.length = 20) : pad20 l = l := by
  simp [pad20, h, List.take_of_length_le h.le]

lemma hsLoop_cons_of_le {buf : List Nat} (rest : List (List Nat))
    (h : 68 ≤ buf.length) : hsLoop (buf :: rest) = buf := by
  simp [hsLoop, hsGoF, Nat.not_lt.mpr h]

lemma handshakeRun_cons_of_le (ourH : List Nat) {buf : List Nat}
    (rest : List (List Nat)) (h : 68 ≤ buf.length) :
    handshakeRun ourH (buf :: rest) =
      if (buf.drop 28).take 20 = ourH then
        .ok ((buf.drop 48).take 20, buf.drop 68)
      else .error .protocolError := by
  have hl : ¬ (buf.take 68).length < 68 := by
    simp [List.length_take]; omega
  have e1 : ((buf.take 68).drop 28).take 20 = (buf.drop 28).take 20 := by
    rw [List.drop_take, List.take_take]
    norm_num
  have e2 : ((buf.take 68).drop 48).take 20 = (buf.drop 48).take 20 := by
    rw [List.drop_take, List.take_take]
    norm_num
  unfold handshakeRun handshakeDecode
  rw [hsLoop_cons_of_le rest h, if_neg hl]
  simp only [e1, e2]

/-- C4 counterexample: a 68-byte handshake whose first 28 bytes are all
garbage (wrong pstrlen, wrong pstr, nonzero reserved bytes) but whose
info-hash field matches ours is accepted with no ProtocolError — the
code validates only the length and the info-hash, never the shape. -/
theorem c4_counterexample :
    (List.replicate 28 9 ++ exInfoHash ++ exPeerId).length = 68 ∧
    (List.replicate 28 9 ++ exInfoHash ++ exPeerId).take 20 ≠ 19 :: pstr ∧
    handshakeRun exInfoHash [List.replicate 28 9 ++ exInfoHash ++ exPeerId] =
      .ok (exPeerId, []) :=
  ⟨by decide, by decide, rfl⟩

/-- C4 (amended): Handshake.encode on 20-byte inputs produces exactly
the 68-byte frame `0x13 ‖ "BitTorrent protocol" ‖ 8 zero bytes ‖
info_hash ‖ peer_id`; during the session handshake a received buffer of
at least 68 bytes is rejected with ProtocolError exactly when bytes
28..47 differ from our info-hash — the pstrlen, pstr and reserved bytes
are not validated. -/
theorem c4_handshake_amended :
    (∀ ih pid : List Nat, ih.length = 20 → pid.length = 20 →
      handshakeEncode ih pid = [19] ++ pstr ++ List.replicate 8 0 ++ ih ++ pid ∧
      (handshakeEncode ih pid).length = 68) ∧
    (∀ ourH buf : List Nat, 68 ≤ buf.length →
      handshakeRun ourH [buf] =
        if (buf.drop 28).take 20 = ourH then
          .ok ((buf.drop 48).take 20, buf.drop 68)
        else .error .protocolError) := by
  constructor
  · intro ih pid h1 h2
    have e : handshakeEncode ih pid =
        [19] ++ pstr ++ List.replicate 8 0 ++ ih ++ pid := by
      simp [handshakeEncode, pad20_eq_of_length h1, pad20_eq_of_length h2]
    refine ⟨e, ?_⟩
    rw [e]
    simp [pstr, h1, h2]
  · intro ourH buf h
    exact handshakeRun_cons_of_le ourH [] h

/-- C4 witness: the amended statement applied to the concrete example
handshake frame. -/
theorem c4_witness :
    (handshakeEncode exInfoHash exPeerId).length = 68 ∧
    handshakeRun exInfoHash [handshakeEncode exInfoHash exPeerId] =
      .ok (exPeerId, []) := by
  refine ⟨(c4_handshake_amended.1 exInfoHash exPeerId (by decide) (by decide)).2, ?_⟩
  rw [c4_handshake_amended.2 exInfoHash (handshakeEncode exInfoHash exPeerId)
    (by decide), if_pos (by decide)]
  rfl

lemma hsGoF_chunk_or (f : Nat) : ∀ (buf : List Nat) (tries : Nat)
    (reads : List (List Nat)),
    hsGoF f buf tries reads = buf ∨ hsGoF f buf tries reads = [] ∨
      hsGoF f buf tries reads ∈ reads := by
  induction f with
  | zero => intro buf tries reads; left; rfl
  | succ f ih =>
    intro buf tries reads
    simp only [hsGoF]
    by_cases hc : buf.length < 68 ∧ tries < 10
    · rw [if_pos hc]
      cases reads with
      | nil =>
        show hsGoF f [] (tries + 1) [] = buf ∨ hsGoF f [] (tries + 1) [] = [] ∨
          hsGoF f [] (tries + 1) [] ∈ ([] : List (List Nat))
        rcases ih [] (tries + 1) [] with h | h | h
        · right; left; exact h
        · right; left; exact h
        · simp at h
      | cons r rs =>
        show hsGoF f r (tries + 1) rs = buf ∨ hsGoF f r (tries + 1) rs = [] ∨
          hsGoF f r (tries + 1) rs ∈ r :: rs
        rcases ih r (tries + 1) rs with h | h | h
        · right; right; rw [h]; exact List.mem_cons_self r rs
        · right; left; exact h
        · right; right; exact List.mem_cons_of_mem r h
    · rw [if_neg hc]; left; rfl

lemma hsGoF_reads_take (f : Nat) : ∀ (buf : List Nat) (tries : Nat)
    (reads : List (List Nat)),
    hsGoF f buf tries reads = hsGoF f buf tries (reads.take (10 - tries)) := by
  induction f with
  | zero => intro buf tries reads; rfl
  | succ f ih =>
    intro buf tries reads
    simp only [hsGoF]
    by_cases hc : buf.length < 68 ∧ tries < 10
    · rw [if_pos hc, if_pos hc]
      cases reads with
      | nil => simp
      | cons r rs =>
        have e : 10 - tries = (10 - (tries + 1)) + 1 := by omega
        rw [e, List.take_succ_cons]
        exact ih r (tries + 1) rs
    · rw [if_neg hc, if_neg hc]

/-- C7 counterexample: a valid handshake for our info-hash split into
two 34-byte chunks.  68 bytes arrive in total, yet the session fails
with ProtocolError: the read loop overwrites its buffer with each read
instead of accumulating, so no single kept chunk reaches 68 bytes. -/
theorem c7_counterexample :
    exFull.take 34 ++ exFull.drop 34 = handshakeEncode exInfoHash exPeerId ∧
    (exFull.take 34).length = 34 ∧ (exFull.drop 34).length = 34 ∧
    handshakeRun exInfoHash [exFull.take 34, exFull.drop 34] =
      .error .protocolError :=
  ⟨by decide, by decide, by decide, rfl⟩

/-- C7 (amended): after sending our handshake the session repeatedly
reads chunks, keeping only the most recent chunk (earlier bytes are
discarded), and looks at no more than the first nine reads; when a first
chunk of at least 68 bytes arrives, its first 68 bytes are decoded and
rejected with ProtocolError exactly when the info-hash bytes 28..47
differ from ours, and the bytes of that chunk beyond the first 68 are
handed to the framer as its initial buffer. -/
theorem c7_handshake_read_amended :
    (∀ reads, hsLoop reads = [] ∨ hsLoop reads ∈ reads) ∧
    (∀ reads, hsLoop reads = hsLoop (reads.take 9)) ∧
    (∀ (ourH : List Nat) (buf : List Nat) (rest : List (List Nat)),
      68 ≤ buf.length →
      handshakeRun ourH (buf :: rest) =
        if (buf.drop 28).take 20 = ourH then
          .ok ((buf.drop 48).take 20, buf.drop 68)
        else .error .protocolError) := by
  refine ⟨?_, ?_, ?_⟩
  · intro reads
    rcases hsGoF_chunk_or 10 [] 1 reads with h | h | h
    · left; exact h
    · left; exact h
    · right; exact h
  · intro reads
    simpa using hsGoF_reads_take 10 [] 1 reads
  · intro ourH buf rest h
    exact handshakeRun_cons_of_le ourH rest h

/-- C7 witness: the amended statement applied to a single oversized
chunk carrying the example handshake plus five trailing bytes. -/
theorem c7_witness :
    (hsLoop [exFull ++ [0, 0, 0, 1, 1]] = [] ∨
      hsLoop [exFull ++ [0, 0, 0, 1, 1]] ∈ [exFull ++ [0, 0, 0, 1, 1]]) ∧
    handshakeRun exInfoHash [exFull ++ [0, 0, 0, 1, 1]] =
      .ok (exPeerId, [0, 0, 0, 1, 1]) := by
  refine ⟨c7_handshake_read_amended.1 _, ?_⟩
  rw [c7_handshake_read_amended.2.2 exInfoHash (exFull ++ [0, 0, 0, 1, 1]) []
    (by decide), if_pos (by decide)]
  rfl

/-! ### C6: choke status -/

lemma pump_myState (s : SessState) (ob : Option Block) :
    (pump s ob).1.myState = s.myState ∨
    (pump s ob).1.myState = s.myState ++ [.pendingRequest] := by
  unfold pump
  split_ifs <;> cases ob <;> simp

lemma count_choked_pump (s : SessState) (ob : Option Block) :
    (pump s ob).1.myState.count Tag.choked = s.myState.count .choked := by
  rcases pump_myState s ob with h | h <;>
    simp [h, List.count_append, List.count_cons]

lemma stopped_notin_pump (s : SessState) (ob : Option Block)
    (h : Tag.stopped ∉ s.myState) : Tag.stopped ∉ (pump s ob).1.myState := by
  rcases pump_myState s ob with e | e <;> rw [e] <;> simp_all

lemma runS_choke_count : ∀ (inputs : List (Msg × Option Block)) (s : SessState),
    (∀ p ∈ inputs, p.1 = Msg.choke ∨ p.1 = Msg.unchoke) →
    Tag.stopped ∉ s.myState →
    ∃ s', runS s inputs = .ok s' ∧
      s'.myState.count .choked =
        chokeTally (s.myState.count .choked) (inputs.map Prod.fst) := by
  intro inputs
  induction inputs with
  | nil => intro s _ _; exact ⟨s, rfl, rfl⟩
  | cons p rest ih =>
    intro s h hs
    obtain ⟨m, ob⟩ := p
    have htail : ∀ q ∈ rest, q.1 = Msg.choke ∨ q.1 = Msg.unchoke :=
      fun q hq => h q (List.mem_cons_of_mem _ hq)
    rcases h _ (List.mem_cons_self _ _) with hm | hm <;> simp only at hm <;>
      subst hm
    · have hstep : step s .choke ob =
          .ok ((pump { s with myState := s.myState ++ [.choked] } ob).1,
            (pump { s with myState := s.myState ++ [.choked] } ob).2) := by
        simp [step, handle]
      obtain ⟨s', h1, h2⟩ := ih (pump { s with myState := s.myState ++ [.choked] } ob).1
        htail (stopped_notin_pump _ ob (by simp_all))
      refine ⟨s', ?_, ?_⟩
      · simp only [runS]
        rw [if_neg hs, hstep]
        exact h1
      · rw [h2, count_choked_pump]
        simp [List.count_append, List.count_cons, List.map_cons, chokeTally]
    · have hstep : step s .unchoke ob =
          .ok ((pump { s with myState :=
              if Tag.choked ∈ s.myState then s.myState.erase .choked
              else s.myState } ob).1,
            (pump { s with myState :=
              if Tag.choked ∈ s.myState then s.myState.erase .choked
              else s.myState } ob).2) := by
        simp [step, handle]
      have hserase : Tag.stopped ∉
          (if Tag.choked ∈ s.myState then s.myState.erase .choked
            else s.myState) := by
        split_ifs with hmem
        · intro hcontra
          exact hs ((List.mem_erase_of_ne (by decide)).mp hcontra)
        · exact hs
      obtain ⟨s', h1, h2⟩ := ih (pump { s with myState :=
          if Tag.choked ∈ s.myState then s.myState.erase .choked
          else s.myState } ob).1 htail (stopped_notin_pump _ ob hserase)
      refine ⟨s', ?_, ?_⟩
      · simp only [runS]
        rw [if_neg hs, hstep]
        exact h1
      · rw [h2, count_choked_pump]
        have hcount : (if Tag.choked ∈ s.myState then s.myState.erase .choked
            else s.myState).count Tag.choked = s.myState.count .choked - 1 := by
          split_ifs with hmem
          · exact List.count_erase_self ..
          · rw [List.count_eq_zero.mpr hmem]
        rw [hcount]
        simp [List.map_cons, chokeTally]

/-- C6 counterexample: from the fresh post-handshake state, processing
choke, choke, unchoke leaves `'choked'` in `my_state` — the session is
still choked although the last choke-family message was unchoke.  Each
`choke` appends another tag and `unchoke` removes only one. -/
theorem c6_counterexample :
    runS initState [(.choke, none), (.choke, none), (.unchoke, none)] =
      .ok ⟨[.interested, .choked, .choked], []⟩ ∧
    Tag.choked ∈ ([Tag.interested, .choked, .choked] : List Tag) :=
  ⟨rfl, by decide⟩

/-- C6 (amended): across any sequence of choke/unchoke messages the
choked status behaves as a nonnegative counter, not a boolean: starting
from one `'choked'` tag after the handshake, each choke increments the
tag count, each unchoke decrements it (stopping at zero), and the
session is choked exactly when the count is positive — so choke, choke,
unchoke leaves the session choked. -/
theorem c6_choke_counter (inputs : List (Msg × Option Block))
    (h : ∀ p ∈ inputs, p.1 = Msg.choke ∨ p.1 = Msg.unchoke) :
    ∃ s', runS initState inputs = .ok s' ∧
      s'.myState.count .choked = chokeTally 1 (inputs.map Prod.fst) ∧
      (Tag.choked ∈ s'.myState ↔ 0 < chokeTally 1 (inputs.map Prod.fst)) := by
  obtain ⟨s', h1, h2⟩ := runS_choke_count inputs initState h (by decide)
  have hc : s'.myState.count Tag.choked = chokeTally 1 (inputs.map Prod.fst) := by
    have e : initState.myState.count Tag.choked = 1 := by decide
    rw [e] at h2
    exact h2
  refine ⟨s', h1, hc, ?_⟩
  rw [← hc]
  exact List.count_pos_iff.symm

/-- C6 witness: the amended statement applied to a single choke
message. -/
theorem c6_witness :
    ∃ s', runS initState [(Msg.choke, (none : Option Block))] = .ok s' ∧
      s'.myState.count .choked =
        chokeTally 1 ([(Msg.choke, (none : Option Block))].map Prod.fst) ∧
      (Tag.choked ∈ s'.myState ↔
        0 < chokeTally 1 ([(Msg.choke, (none : Option Block))].map Prod.fst)) :=
  c6_choke_counter [(Msg.choke, none)] (by decide)

/-! ### C9 -/

/-- C9: a `piece` message arriving while `'pending_request'` is not in
`my_state` raises ValueError from `list.remove` before the block
callback runs: the step fails with the error, no block is delivered, and
the message loop ends at that message. -/
theorem c9_unsolicited_piece_raises (s : SessState) (i b : Nat)
    (blk : List Nat) (ob : Option Block) (rest : List (Msg × Option Block))
    (h : Tag.pendingRequest ∉ s.myState) :
    step s (.piece i b blk) ob = .error .valueError ∧
    runTrace s ((.piece i b blk, ob) :: rest) = [] := by
  have hstep : step s (.piece i b blk) ob = .error .valueError := by
    simp [step, handle, h]
  refine ⟨hstep, ?_⟩
  by_cases hs : Tag.stopped ∈ s.myState
  · simp [runTrace, hs]
  · simp [runTrace, hs, hstep]

/-- C9 witness: the fresh post-handshake state has no pending request,
so an unsolicited piece raises there. -/
theorem c9_witness :
    step initState (.piece 0 0 [7]) none = .error .valueError ∧
    runTrace initState [(.piece 0 0 [7], none)] = [] :=
  c9_unsolicited_piece_raises initState 0 0 [7] none [] (by decide)

/-! ### C8: tracker peers field -/

lemma getD_cons_six (b0 b1 b2 b3 b4 b5 : Nat) (rest : List Nat) (m : Nat) :
    (b0 :: b1 :: b2 :: b3 :: b4 :: b5 :: rest).getD (m + 6) 0 = rest.getD m 0 :=
  rfl

/-- C8: a binary peers blob whose length is a multiple of six parses
into exactly length/6 Peer records — the i-th record's ip is the
dotted-quad rendering of bytes 6i..6i+3, its port the big-endian 16-bit
value of bytes 6i+4..6i+5, and its id None — while a dictionary-model
peers list raises NotImplementedError. -/
theorem c8_tracker_peers :
    (∀ (bs : List Nat) (n : Nat), bs.length = 6 * n →
      ∃ ps, generatePeerList (.blob bs) = .ok ps ∧ ps.length = n ∧
        ∀ i, i < n → ps[i]? = some
          ⟨Nat.repr (bs.getD (6 * i) 0) ++ "." ++
            Nat.repr (bs.getD (6 * i + 1) 0) ++ "." ++
            Nat.repr (bs.getD (6 * i + 2) 0) ++ "." ++
            Nat.repr (bs.getD (6 * i + 3) 0),
           bs.getD (6 * i + 4) 0 * 256 + bs.getD (6 * i + 5) 0, none⟩) ∧
    (∀ l, generatePeerList (.dicts l) = .error .notImplemented) := by
  constructor
  · intro bs n
    induction n generalizing bs with
    | zero =>
      intro h
      have : bs = [] := List.length_eq_zero.mp (by omega)
      subst this
      exact ⟨[], rfl, rfl, fun i hi => absurd hi (by omega)⟩
    | succ n ih =>
      intro h
      obtain ⟨b0, b1, b2, b3, b4, b5, rest, rfl⟩ :
          ∃ b0 b1 b2 b3 b4 b5 rest,
            bs = b0 :: b1 :: b2 :: b3 :: b4 :: b5 :: rest := by
        rcases bs with _ | ⟨b0, _ | ⟨b1, _ | ⟨b2, _ | ⟨b3, _ | ⟨b4, _ | ⟨b5, rest⟩⟩⟩⟩⟩⟩ <;>
          first
            | exact ⟨_, _, _, _, _, _, _, rfl⟩
            | (simp only [List.length_cons, List.length_nil] at h; omega)
      have hrest : rest.length = 6 * n := by
        simp at h
        omega
      obtain ⟨ps', hps', hlen', hidx'⟩ := ih rest hrest
      have hm : (chunks6 rest).mapM peerOfRecord = .ok ps' := hps'
      refine ⟨⟨Nat.repr b0 ++ "." ++ Nat.repr b1 ++ "." ++ Nat.repr b2 ++ "." ++
          Nat.repr b3, b4 * 256 + b5, none⟩ :: ps', ?_, ?_, ?_⟩
      · show ([b0, b1, b2, b3, b4, b5] :: chunks6 rest).mapM peerOfRecord = _
        rw [List.mapM_cons, hm]
        rfl
      · simpa using hlen'
      · intro i hi
        cases i with
        | zero =>
          simp only [Nat.mul_zero, Nat.zero_add, List.getElem?_cons_zero]
          rfl
        | succ i =>
          have e0 : 6 * (i + 1) = 6 * i + 6 := by ring
          have e1 : 6 * (i + 1) + 1 = 6 * i + 1 + 6 := by ring
          have e2 : 6 * (i + 1) + 2 = 6 * i + 2 + 6 := by ring
          have e3 : 6 * (i + 1) + 3 = 6 * i + 3 + 6 := by ring
          have e4 : 6 * (i + 1) + 4 = 6 * i + 4 + 6 := by ring
          have e5 : 6 * (i + 1) + 5 = 6 * i + 5 + 6 := by ring
          rw [List.getElem?_cons_succ, e5, e4, e3, e2, e1, e0, getD_cons_six,
            getD_cons_six, getD_cons_six, getD_cons_six, getD_cons_six,
            getD_cons_six]
          exact hidx' i (by omega)
  · intro l
    rfl

/-- C8 witness: the theorem applied to a concrete 12-byte blob holding
peers 127.0.0.1:6881 and 10.0.0.2:80. -/
theorem c8_witness :
    ∃ ps, generatePeerList (.blob [127, 0, 0, 1, 26, 225, 10, 0, 0, 2, 0, 80]) =
        .ok ps ∧ ps.length = 2 ∧
      ∀ i, i < 2 → ps[i]? = some
        ⟨Nat.repr ([127, 0, 0, 1, 26, 225, 10, 0, 0, 2, 0, 80].getD (6 * i) 0) ++
          "." ++
          Nat.repr ([127, 0, 0, 1, 26, 225, 10, 0, 0, 2, 0, 80].getD (6 * i + 1) 0) ++
          "." ++
          Nat.repr ([127, 0, 0, 1, 26, 225, 10, 0, 0, 2, 0, 80].getD (6 * i + 2) 0) ++
          "." ++
          Nat.repr ([127, 0, 0, 1, 26, 225, 10, 0, 0, 2, 0, 80].getD (6 * i + 3) 0),
         [127, 0, 0, 1, 26, 225, 10, 0, 0, 2, 0, 80].getD (6 * i + 4) 0 * 256 +
           [127, 0, 0, 1, 26, 225, 10, 0, 0, 2, 0, 80].getD (6 * i + 5) 0, none⟩ :=
  c8_tracker_peers.1 [127, 0, 0, 1, 26, 225, 10, 0, 0, 2, 0, 80] 2 (by decide)

/-! ### C10 -/

/-- C10: the tracker response accessors fall back to 0 when their key is
absent, and `failure` returns None exactly when `b'failure reason'` is
absent from the response dictionary. -/
theorem c10_tracker_defaults :
    (∀ r : TrackerResponse,
      dictGet r.responseRaw bInterval = none → interval r = .int 0) ∧
    (∀ r : TrackerResponse,
      dictGet r.responseRaw bComplete = none → complete r = .int 0) ∧
    (∀ r : TrackerResponse,
      dictGet r.responseRaw bIncomplete = none → incomplete r = .int 0) ∧
    (∀ (dec : List Nat → Except Unit String) (r : TrackerResponse),
      failure dec r = .ok none ↔ dictGet r.responseRaw bFailureReason = none) := by
  refine ⟨?_, ?_, ?_, ?_⟩
  · intro r h; simp [interval, h]
  · intro r h; simp [complete, h]
  · intro r h; simp [incomplete, h]
  · intro dec r
    constructor
    · intro h
      cases hd : dictGet r.responseRaw bFailureReason with
      | none => rfl
      | some v =>
        cases v with
        | int n => simp [failure, hd] at h
        | bytes bs =>
          cases hdec : dec bs with
          | ok s => simp [failure, hd, hdec] at h
          | error e => simp [failure, hd, hdec] at h
    · intro h
      simp [failure, h]

/-- C10 witness: the accessors evaluated on the empty response
dictionary. -/
theorem c10_witness :
    interval ⟨[]⟩ = .int 0 ∧ complete ⟨[]⟩ = .int 0 ∧
    incomplete ⟨[]⟩ = .int 0 ∧
    (failure (fun _ => .ok "") ⟨[]⟩ = .ok none ↔
      dictGet (TrackerResponse.mk []).responseRaw bFailureReason = none) :=
  ⟨c10_tracker_defaults.1 ⟨[]⟩ (by decide),
   c10_tracker_defaults.2.1 ⟨[]⟩ (by decide),
   c10_tracker_defaults.2.2.1 ⟨[]⟩ (by decide),
   c10_tracker_defaults.2.2.2 (fun _ => .ok "") ⟨[]⟩⟩

/-! ### C5: at most one request in flight -/

lemma handle_no_send (s : SessState) (m : Msg) (s1 : SessState)
    (effs : List Effect) (h : handle s m = .ok (s1, effs)) :
    effs.any isSendReq = false := by
  cases m
  case piece i b blk =>
    simp only [handle] at h
    split at h
    · simp only [Except.ok.injEq, Prod.mk.injEq] at h
      obtain ⟨h1, h2⟩ := h
      subst h2
      rfl
    · simp at h
  all_goals
    simp only [handle, Except.ok.injEq, Prod.mk.injEq] at h
  all_goals
    obtain ⟨h1, h2⟩ := h
  all_goals
    subst h2
  all_goals
    rfl

lemma pump_no_pending (s : SessState) (ob : Option Block)
    (h : Tag.pendingRequest ∈ s.myState) : pump s ob = (s, []) := by
  unfold pump
  by_cases h1 : Tag.choked ∉ s.myState
  · rw [if_pos h1]
    by_cases h2 : Tag.interested ∈ s.myState
    · rw [if_pos h2, if_neg (not_not_intro h)]
    · rw [if_neg h2]
  · rw [if_neg h1]

lemma pump_send_of (s : SessState) (blk : Block)
    (h1 : Tag.choked ∉ s.myState) (h2 : Tag.interested ∈ s.myState)
    (h3 : Tag.pendingRequest ∉ s.myState) :
    pump s (some blk) = ({ s with myState := s.myState ++ [.pendingRequest] },
      [.sendRequest blk.piece blk.offset blk.length]) := by
  unfold pump
  rw [if_pos h1, if_pos h2, if_pos h3]

lemma pump_sends (s : SessState) (ob : Option Block)
    (h : (pump s ob).2.any isSendReq = true) :
    Tag.choked ∉ s.myState ∧ Tag.interested ∈ s.myState ∧
    Tag.pendingRequest ∉ s.myState ∧ ob.isSome = true ∧
    (pump s ob).1.myState = s.myState ++ [.pendingRequest] := by
  by_cases h1 : Tag.choked ∉ s.myState
  · by_cases h2 : Tag.interested ∈ s.myState
    · by_cases h3 : Tag.pendingRequest ∉ s.myState
      · cases ob with
        | some blk =>
          rw [pump_send_of s blk h1 h2 h3]
          exact ⟨h1, h2, h3, rfl, rfl⟩
        | none =>
          have e : pump s none =
              ({ s with myState := s.myState ++ [.pendingRequest] }, []) := by
            unfold pump
            rw [if_pos h1, if_pos h2, if_pos h3]
          rw [e] at h
          simp at h
      · have e : pump s ob = (s, []) := by
          unfold pump
          rw [if_pos h1, if_pos h2, if_neg h3]
        rw [e] at h
        simp at h
    · have e : pump s ob = (s, []) := by
        unfold pump
        rw [if_pos h1, if_neg h2]
      rw [e] at h
      simp at h
  · have e : pump s ob = (s, []) := by
      unfold pump
      rw [if_neg h1]
    rw [e] at h
    simp at h

lemma step_send_inv (s : SessState) (m : Msg) (ob : Option Block)
    (s' : SessState) (effs : List Effect) (h : step s m ob = .ok (s', effs))
    (hs : effs.any isSendReq = true) :
    ∃ s1 effs1, handle s m = .ok (s1, effs1) ∧ Tag.choked ∉ s1.myState ∧
      Tag.interested ∈ s1.myState ∧ Tag.pendingRequest ∉ s1.myState ∧
      ob.isSome = true ∧ s'.myState = s1.myState ++ [.pendingRequest] ∧
      Tag.pendingRequest ∈ s'.myState := by
  cases hh : handle s m with
  | error e =>
    simp only [step, hh] at h
    exact Except.noConfusion h
  | ok pr =>
    obtain ⟨s1, effs1⟩ := pr
    simp only [step, hh, Except.ok.injEq, Prod.mk.injEq] at h
    obtain ⟨h1, h2⟩ := h
    subst h2
    rw [List.any_append, handle_no_send s m s1 effs1 hh, Bool.false_or] at hs
    obtain ⟨hc, hi, hp, hob, hmy⟩ := pump_sends s1 ob hs
    refine ⟨s1, effs1, rfl, hc, hi, hp, hob, ?_, ?_⟩
    · rw [← h1, hmy]
    · rw [← h1, hmy]
      exact List.mem_append_right _ (by simp)

lemma handle_preserves_pending (s : SessState) (m : Msg) (s1 : SessState)
    (effs1 : List Effect) (h : handle s m = .ok (s1, effs1))
    (hp : Tag.pendingRequest ∈ s.myState)
    (hm : ∀ i b blk, m ≠ .piece i b blk) :
    Tag.pendingRequest ∈ s1.myState := by
  cases m
  case piece i b blk => exact absurd rfl (hm i b blk)
  case choke =>
    simp only [handle, Except.ok.injEq, Prod.mk.injEq] at h
    obtain ⟨h1, h2⟩ := h
    subst h1
    exact List.mem_append_left _ hp
  case unchoke =>
    simp only [handle, Except.ok.injEq, Prod.mk.injEq] at h
    obtain ⟨h1, h2⟩ := h
    subst h1
    show Tag.pendingRequest ∈
      (if Tag.choked ∈ s.myState then s.myState.erase .choked else s.myState)
    split_ifs
    · exact (List.mem_erase_of_ne (by decide)).mpr hp
    · exact hp
  all_goals
    simp only [handle, Except.ok.injEq, Prod.mk.injEq] at h
  all_goals
    obtain ⟨h1, h2⟩ := h
  all_goals
    subst h1
  all_goals
    exact hp

lemma step_pending_no_piece (s : SessState) (m : Msg) (ob : Option Block)
    (s' : SessState) (effs : List Effect) (h : step s m ob = .ok (s', effs))
    (hp : Tag.pendingRequest ∈ s.myState)
    (hm : ∀ i b blk, m ≠ .piece i b blk) :
    effs.any isSendReq = false ∧ Tag.pendingRequest ∈ s'.myState := by
  cases hh : handle s m with
  | error e =>
    simp only [step, hh] at h
    exact Except.noConfusion h
  | ok pr =>
    obtain ⟨s1, effs1⟩ := pr
    have hp1 : Tag.pendingRequest ∈ s1.myState :=
      handle_preserves_pending s m s1 effs1 hh hp hm
    simp only [step, hh, pump_no_pending s1 ob hp1, Except.ok.injEq,
      Prod.mk.injEq] at h
    obtain ⟨h1, h2⟩ := h
    subst h2
    refine ⟨?_, h1 ▸ hp1⟩
    rw [List.any_append, handle_no_send s m s1 effs1 hh]
    rfl

lemma trace_piece_before_send :
    ∀ (inputs : List (Msg × Option Block)) (s : SessState),
    Tag.pendingRequest ∈ s.myState →
    ∀ (j : Nat) (p : Msg × Bool),
    (runTrace s inputs)[j]? = some p → p.2 = true →
    ∃ k, k ≤ j ∧ ∃ a b blk sent,
      (runTrace s inputs)[k]? = some (.piece a b blk, sent) := by
  intro inputs
  induction inputs with
  | nil =>
    intro s hp j p hj _
    simp [runTrace] at hj
  | cons q rest ih =>
    intro s hp j p hj hsent
    obtain ⟨m, ob⟩ := q
    by_cases hstop : Tag.stopped ∈ s.myState
    · simp [runTrace, hstop] at hj
    · cases hst : step s m ob with
      | error e =>
        have htr : runTrace s ((m, ob) :: rest) = [] := by
          simp only [runTrace]
          rw [if_neg hstop, hst]
        rw [htr] at hj
        simp at hj
      | ok pr =>
        obtain ⟨s', effs⟩ := pr
        have htr : runTrace s ((m, ob) :: rest) =
            (m, effs.any isSendReq) :: runTrace s' rest := by
          simp only [runTrace]
          rw [if_neg hstop, hst]
        rw [htr] at hj
        by_cases hpiece : ∃ a b blk, m = .piece a b blk
        · obtain ⟨a, b, blk, rfl⟩ := hpiece
          refine ⟨0, Nat.zero_le j, a, b, blk, effs.any isSendReq, ?_⟩
          rw [htr]
          exact List.getElem?_cons_zero
        · push_neg at hpiece
          have hnp := step_pending_no_piece s m ob s' effs hst hp hpiece
          cases j with
          | zero =>
            rw [List.getElem?_cons_zero] at hj
            cases hj
            rw [hnp.1] at hsent
            simp at hsent
          | succ j' =>
            rw [List.getElem?_cons_succ] at hj
            obtain ⟨k, hk, a, b, blk, sent, hkk⟩ := ih s' hnp.2 j' p hj hsent
            refine ⟨k + 1, by omega, a, b, blk, sent, ?_⟩
            rw [htr, List.getElem?_cons_succ]
            exact hkk

lemma trace_send_send_piece :
    ∀ (inputs : List (Msg × Option Block)) (s : SessState) (i j : Nat)
      (p q : Msg × Bool), i < j →
    (runTrace s inputs)[i]? = some p → p.2 = true →
    (runTrace s inputs)[j]? = some q → q.2 = true →
    ∃ k, i < k ∧ k ≤ j ∧ ∃ a b blk sent,
      (runTrace s inputs)[k]? = some (.piece a b blk, sent) := by
  intro inputs
  induction inputs with
  | nil =>
    intro s i j p q hij hi _ _ _
    simp [runTrace] at hi
  | cons r rest ih =>
    intro s i j p q hij hi hpi hj hqj
    obtain ⟨m, ob⟩ := r
    by_cases hstop : Tag.stopped ∈ s.myState
    · simp [runTrace, hstop] at hi
    · cases hst : step s m ob with
      | error e =>
        have htr : runTrace s ((m, ob) :: rest) = [] := by
          simp only [runTrace]
          rw [if_neg hstop, hst]
        rw [htr] at hi
        simp at hi
      | ok pr =>
        obtain ⟨s', effs⟩ := pr
        have htr : runTrace s ((m, ob) :: rest) =
            (m, effs.any isSendReq) :: runTrace s' rest := by
          simp only [runTrace]
          rw [if_neg hstop, hst]
        rw [htr] at hi hj
        cases i with
        | zero =>
          rw [List.getElem?_cons_zero] at hi
          cases hi
          have hsend : effs.any isSendReq = true := hpi
          obtain ⟨s1, effs1, _, _, _, _, _, _, hpend⟩ :=
            step_send_inv s m ob s' effs hst hsend
          cases j with
          | zero => omega
          | succ j' =>
            rw [List.getElem?_cons_succ] at hj
            obtain ⟨k, hk, a, b, blk, sent, hkk⟩ :=
              trace_piece_before_send rest s' hpend j' q hj hqj
            refine ⟨k + 1, by omega, by omega, a, b, blk, sent, ?_⟩
            rw [htr, List.getElem?_cons_succ]
            exact hkk
        | succ i' =>
          cases j with
          | zero => omega
          | succ j' =>
            rw [List.getElem?_cons_succ] at hi hj
            obtain ⟨k, hk1, hk2, a, b, blk, sent, hkk⟩ :=
              ih s' i' j' p q (by omega) hi hpi hj hqj
            refine ⟨k + 1, by omega, by omega, a, b, blk, sent, ?_⟩
            rw [htr, List.getElem?_cons_succ]
            exact hkk

/-- C5: in the message loop a `request` is sent only when, after
handling the message, the session is not choked, is interested and has
no pending request, and the piece manager returned a block; sending sets
the pending-request tag; and between any two sent requests in a session
trace a `piece` message is processed, so at most one request is in
flight at any time. -/
theorem c5_at_most_one_request :
    (∀ s m ob s' effs, step s m ob = .ok (s', effs) →
      effs.any isSendReq = true →
      ∃ s1 effs1, handle s m = .ok (s1, effs1) ∧ Tag.choked ∉ s1.myState ∧
        Tag.interested ∈ s1.myState ∧ Tag.pendingRequest ∉ s1.myState ∧
        ob.isSome = true ∧ Tag.pendingRequest ∈ s'.myState) ∧
    (∀ s m blk s1 effs1, handle s m = .ok (s1, effs1) →
      Tag.choked ∉ s1.myState → Tag.interested ∈ s1.myState →
      Tag.pendingRequest ∉ s1.myState →
      step s m (some blk) =
        .ok ({ s1 with myState := s1.myState ++ [.pendingRequest] },
          effs1 ++ [.sendRequest blk.piece blk.offset blk.length])) ∧
    (∀ (inputs : List (Msg × Option Block)) (i : Nat) (j : Nat)
      (p q : Msg × Bool), i < j →
      (runTrace initState inputs)[i]? = some p → p.2 = true →
      (runTrace initState inputs)[j]? = some q → q.2 = true →
      ∃ k, i < k ∧ k ≤ j ∧ ∃ a b blk sent,
        (runTrace initState inputs)[k]? = some (.piece a b blk, sent)) := by
  refine ⟨?_, ?_, ?_⟩
  · intro s m ob s' effs h hs
    obtain ⟨s1, effs1, hh, hc, hi, hp, hob, _, hpend⟩ :=
      step_send_inv s m ob s' effs h hs
    exact ⟨s1, effs1, hh, hc, hi, hp, hob, hpend⟩
  · intro s m blk s1 effs1 hh h1 h2 h3
    simp only [step, hh, pump_send_of s1 blk h1 h2 h3]
  · intro inputs i j p q hij hi hpi hj hqj
    exact trace_send_send_piece inputs initState i j p q hij hi hpi hj hqj

/-- C5 witness: an unchoke from the fresh state sends exactly one
request and sets the pending tag, and in the concrete trace
unchoke-then-piece with both steps sending, the piece entry lies between
the two sends. -/
theorem c5_witness :
    step initState .unchoke (some ⟨0, 0, 16384⟩) =
      .ok (⟨[.interested, .pendingRequest], []⟩, [.sendRequest 0 0 16384]) ∧
    ∃ k, 0 < k ∧ k ≤ 1 ∧ ∃ a b blk sent,
      (runTrace initState [(.unchoke, some ⟨0, 0, 16384⟩),
        (.piece 0 0 [7], some ⟨0, 16384, 16384⟩)])[k]? =
        some (.piece a b blk, sent) := by
  constructor
  · exact c5_at_most_one_request.2.1 initState .unchoke ⟨0, 0, 16384⟩
      ⟨[.interested], []⟩ [] rfl (by decide) (by decide) (by decide)
  · exact c5_at_most_one_request.2.2
      [(.unchoke, some ⟨0, 0, 16384⟩), (.piece 0 0 [7], some ⟨0, 16384, 16384⟩)]
      0 1 (.unchoke, true) (.piece 0 0 [7], true) (by omega) (by decide) rfl
      (by decide) rfl

end MinTorrent
